import Mathlib

/-!
Verification of the `sops_anomaly` anomaly-detection library.

The development shallowly embeds the three detectors of the repository
(`AutoEncoder` in `detectors/autoencoder.py`, `LSTM_AD` in
`detectors/lstm_ad.py`, `Donut` in `models/donut_ad.py`) over in-memory
tables.  A table is a `List (List ℚ)`: the outer list is the time axis, the
inner lists are the signal dimensions of one row.  Trained neural networks
are abstracted as the (deterministic, eval-mode) functions they compute;
the numeric optimisation loop itself is not modelled, only the effect of
`train` on the detector state and everything `predict`/`detect` derive
from that state.  NumPy slicing, slice assignment, `np.stack`, `np.max`
and `np.mean(axis=0)` are embedded with the exact Python index semantics,
including negative indices and clamping.
-/

namespace SopsAnomaly

/-- Python slice-bound normalisation for a sequence of length `n`: a negative
index is shifted by `n`, then the result is clamped into `[0, n]`. -/
def pyBound (n : Nat) (i : Int) : Nat :=
  (min (max (if i < 0 then i + n else i) 0) (n : Int)).toNat

/-- Python slice `xs[a:b]` (step 1): the elements at positions
`pyBound a ≤ k < pyBound b`. -/
def pySlice {α : Type} (xs : List α) (a b : Int) : List α :=
  (xs.take (pyBound xs.length b)).drop (pyBound xs.length a)

/-- NumPy slice assignment `xs[a:b] = p` for one-dimensional `xs`.  The
assignment succeeds when `p` has exactly the length of the selected slice
(the general broadcast of a scalar or length-one array is not needed by this
code base); otherwise NumPy raises a broadcast error, modelled as `none`. -/
def pySliceAssign (xs : List ℚ) (a b : Int) (p : List ℚ) : Option (List ℚ) :=
  if p.length =
      max (pyBound xs.length a) (pyBound xs.length b) - pyBound xs.length a then
    some (xs.take (pyBound xs.length a) ++ p ++
      xs.drop (max (pyBound xs.length a) (pyBound xs.length b)))
  else none

/-- NumPy `np.max` over a one-dimensional array; raises on an empty array. -/
def npMax (xs : List ℚ) : Option ℚ :=
  match xs with
  | [] => none
  | x :: rest => some (rest.foldl max x)

/-- NumPy `np.mean(results, axis=0)`: the pointwise arithmetic mean of a
list of equal-length rows.  An empty or ragged `results` does not produce a
score array (NumPy yields NaN resp. an error), modelled as `none`. -/
def npMeanAxis0 (results : List (List ℚ)) : Option (List ℚ) :=
  match results with
  | [] => none
  | r :: rest =>
    if rest.all (fun s => s.length = r.length) then
      some ((List.range r.length).map
        (fun t => ((r :: rest).map (fun row => row.getD t 0)).sum
          / ((r :: rest).length : ℚ)))
    else none

/-- NumPy `np.stack(comps, axis=last)` for a list of equal-length arrays of
rows: entry `t` of the result collects entry `t` of every component.  NumPy
raises when the list is empty or the shapes disagree, modelled as `none`. -/
def npStackLast {α : Type} (d : α) (comps : List (List α)) : Option (List (List α)) :=
  match comps with
  | [] => none
  | c :: rest =>
    if rest.all (fun e => e.length = c.length) then
      some ((List.range c.length).map (fun t => (c :: rest).map (fun e => e.getD t d)))
    else none

/-- Modelled from the spec: the windowing utility `window_data` lives in
`sops_anomaly/utils.py`, which is not present under `src/`.  Spec 4.1:
"Input: table of T rows × D columns, window size W.  Output: table of
(T−W+1) rows × (D·W) columns, each row the concatenation of W consecutive
original rows.  Error if W > T." -/
def window_data (data : List (List ℚ)) (w : Nat) : Option (List (List ℚ)) :=
  if data.length < w then none
  else some ((List.range (data.length - w + 1)).map
    (fun i => ((data.drop i).take w).flatten))

/-- Torch `F.mse_loss(rec, sample)`: mean squared difference of the two
(equal-length) vectors. -/
def mse (rec sample : List ℚ) : ℚ :=
  (List.zipWith (fun x y => (x - y) ^ 2) rec sample).sum / (rec.length : ℚ)

namespace AutoEncoder

/-- Instance state of `AutoEncoder` (`detectors/autoencoder.py`): the trained
network (`self.model`, `None` before `train`; afterwards abstracted as the
eval-mode reconstruction function it computes), `self._max_error`,
`self._threshold` and `self._window_size`.  The layer schedule and latent
size only shape the network and are absorbed into the abstracted model. -/
structure State where
  model : Option (List ℚ → List ℚ)
  maxError : ℚ
  threshold : ℚ
  windowSize : Nat

/-- Per-sample reconstruction error `F.mse_loss(self.model.forward(sample),
sample).item()` for a trained model `f`. -/
def sampleError (f : List ℚ → List ℚ) (sample : List ℚ) : ℚ :=
  mse (f sample) sample

/-- Shared preprocessing of `train` and `predict`: the input table is
windowed by `_transform_data` exactly when `self._window_size > 1`. -/
def transform_data (w : Nat) (data : List (List ℚ)) : Option (List (List ℚ)) :=
  if 1 < w then window_data data w else some data

/-- Method `AutoEncoder.train`: windows the data if `W > 1`, fits the network (the
gradient loop is numeric and abstracted: `f` is the reconstruction function
computed by the final network), then stores the model and sets
`self._max_error := self._compute_threshold(train_data)`, the maximum
per-sample reconstruction error over the training samples. -/
def train (st : State) (f : List ℚ → List ℚ) (data : List (List ℚ)) :
    Option State :=
  match transform_data st.windowSize data with
  | none => none
  | some samples =>
    match npMax (samples.map (sampleError f)) with
    | none => none
    | some m => some ⟨some f, m, st.threshold, st.windowSize⟩

/-- Method `AutoEncoder.predict`: windows the data if `W > 1`, prepends
`self._window_size - 1` zeros, then appends the reconstruction error of each
sample.  Calling it with `self.model = None` (before `train`) raises an
`AttributeError`, modelled as `none`. -/
def predict (st : State) (data : List (List ℚ)) : Option (List ℚ) :=
  match transform_data st.windowSize data with
  | none => none
  | some samples =>
    match st.model with
    | none => none
    | some f =>
      some (List.replicate (st.windowSize - 1) 0 ++ samples.map (sampleError f))

/-- Method `AutoEncoder.detect`: `(self.predict(data) >= self._threshold *
self._max_error).astype(np.int32)`. -/
def detect (st : State) (data : List (List ℚ)) : Option (List Int) :=
  (predict st data).map
    (List.map (fun s => if st.threshold * st.maxError ≤ s then (1 : Int) else 0))

end AutoEncoder

namespace LSTM_AD

/-- Instance state of `LSTM_AD` (`detectors/lstm_ad.py`): the trained
recurrent model `self.model` (`None` before `train`; afterwards abstracted
as the eval-mode sequence-to-sequence function it computes), the fitted
error distribution `self._error_dist` (abstracted as the likelihood it
assigns to a residual vector), the horizon `self._l_preds` and the
likelihood threshold `self._threshold`. -/
structure State where
  model : Option (List (List ℚ) → List (List ℚ))
  errorDist : Option (List ℚ → ℚ)
  lPreds : Nat
  threshold : ℚ

/-- Components accumulated in the `train_targets` list of
`LSTM_AD._transform_train_data_target`: the slices `values[1+i : -L+i+1]`
for `i < L - 1`, followed by `values[L:]`. -/
def trainTargetComps (L : Nat) (xs : List (List ℚ)) : List (List (List ℚ)) :=
  ((List.range (L - 1)).map
      (fun (i : Nat) => pySlice xs (1 + (i : Int)) (-(L : Int) + i + 1)))
    ++ [pySlice xs (L : Int) (xs.length : Int)]

/-- Method `LSTM_AD._transform_train_data_target`: the input sequence
`values[:-L]` paired with `np.stack(train_targets, axis=3)`, whose entry at
position `t` lists, for each offset `i`, the row `values[t+1+i]`.  (The
stack of `numpy` interleaves the `d` and `L` axes; the embedding keeps the
offset axis outermost, which carries the same rows.) -/
def transform_train_data_target (L : Nat) (xs : List (List ℚ)) :
    Option (List (List ℚ) × List (List (List ℚ))) :=
  (npStackLast [] (trainTargetComps L xs)).map
    (fun targets => (pySlice xs 0 (-(L : Int)), targets))

/-- Method `LSTM_AD._transform_eval_data_target`: evaluation inputs `values[:-L]`
and targets `values[L : -L+1]`. -/
def transform_eval_data_target (L : Nat) (xs : List (List ℚ)) :
    List (List ℚ) × List (List ℚ) :=
  (pySlice xs 0 (-(L : Int)), pySlice xs (L : Int) (-(L : Int) + 1))

/-- Modelled from the spec: `ErrorDistribution`
(`detectors/error_distribution.py`) is not present under `src/`.  Per the
spec it "computes residuals between predicted and true future values" and
"maps them through the fitted distribution to a likelihood score", one
score per evaluated target position: the residual of each
(prediction, target) pair is mapped through the fitted likelihood `dist`. -/
def likelihoods (dist : List ℚ → ℚ) (outputs targets : List (List ℚ)) :
    List ℚ :=
  List.zipWith (fun o t => dist (List.zipWith (fun a b => a - b) o t)) outputs targets

/-- Method `LSTM_AD._get_scores`: `scores = np.zeros((len(data),))`, then
`scores[self._l_preds : -self._l_preds + 1] = p`. -/
def get_scores (L n : Nat) (p : List ℚ) : Option (List ℚ) :=
  pySliceAssign (List.replicate n 0) (L : Int) (-(L : Int) + 1) p

/-- Method `LSTM_AD.predict`: evaluates the model on `values[:-L]` (raising before
`train`, when `self.model` is `None`), turns the residuals against
`values[L:-L+1]` into likelihoods through `self._error_dist`, and embeds
them into a zero-initialised score array via `_get_scores`. -/
def predict (st : State) (data : List (List ℚ)) : Option (List ℚ) :=
  match st.model, st.errorDist with
  | some m, some dist =>
    let ev := transform_eval_data_target st.lPreds data
    get_scores st.lPreds data.length (likelihoods dist (m ev.1) ev.2)
  | _, _ => none

/-- Method `LSTM_AD.train` as it acts on the instance state: `_initialize_model`
replaces `self.model` and `self._error_dist` with freshly created objects,
which training and `_fit_error_distribution` then fit; the fitted results
are abstracted as `m` and `dist`.  No state of a previous `train` call
survives. -/
def train (st : State) (m : List (List ℚ) → List (List ℚ))
    (dist : List ℚ → ℚ) : State :=
  ⟨some m, some dist, st.lPreds, st.threshold⟩

/-- Method `LSTM_AD.detect`: `(self.predict(data) < self._threshold)
.astype(np.int32)`. -/
def detect (st : State) (data : List (List ℚ)) : Option (List Int) :=
  (predict st data).map
    (List.map (fun s => if s < st.threshold then (1 : Int) else 0))

end LSTM_AD

namespace Donut

/-- Instance state of `Donut` (`models/donut_ad.py`): the per-column
predictors accumulated by `train` (`self._models` / `self._predictors` /
`self._sessions` grow in lock step; each triple is abstracted as the
per-column score function `DonutPredictor.get_score` computes for that
column). -/
structure State where
  predictors : List (List ℚ → List ℚ)

/-- Columns of a rectangular table, in order, as produced by iterating
`data.items()` of a `pandas.DataFrame`. -/
def columnsOf (rows : List (List ℚ)) : List (List ℚ) :=
  (List.range (rows.headD []).length).map (fun j => rows.map (fun r => r.getD j 0))

/-- Method `Donut.train` as it acts on the instance state: for every column of the
windowed training data it builds and fits a fresh model and *appends* the
resulting predictor to `self._predictors` (`self._models`,
`self._sessions`).  The per-column fitting is abstracted as the score
functions `gs` obtained for the columns; note the append — previous
predictors are kept. -/
def train (st : State) (gs : List (List ℚ → List ℚ)) : State :=
  ⟨st.predictors ++ gs⟩

/-- Per-column scores computed by the loop of `Donut.predict`: the data is
windowed, and column `i` is scored by `self._predictors[i]` (an
`IndexError` is raised — `none` — when fewer predictors exist than columns,
in particular before `train`).  The external `complete_timestamp` is the
identity on the gap-free indices considered here. -/
def column_scores (w : Nat) (st : State) (data : List (List ℚ)) :
    Option (List (List ℚ)) :=
  match window_data data w with
  | none => none
  | some wd =>
    let cols := columnsOf wd
    if cols.length ≤ st.predictors.length then
      some (List.zipWith (fun g c => g c) st.predictors cols)
    else none

/-- Method `Donut.predict`: `np.mean(results, axis=0)` over the per-column score
arrays. -/
def predict (w : Nat) (st : State) (data : List (List ℚ)) : Option (List ℚ) :=
  match column_scores w st data with
  | none => none
  | some results => npMeanAxis0 results

end Donut

/-! Supporting lemmas about the NumPy/Python primitives. -/

theorem le_foldl_max (rest : List ℚ) :
    ∀ acc : ℚ, acc ≤ rest.foldl max acc ∧ ∀ a ∈ rest, a ≤ rest.foldl max acc := by
  induction rest with
  | nil => intro acc; simp
  | cons b t ih =>
    intro acc
    refine ⟨le_trans (le_max_left acc b) (ih (max acc b)).1, ?_⟩
    intro a ha
    rcases List.mem_cons.mp ha with h | h
    · subst h
      exact le_trans (le_max_right acc a) (ih (max acc a)).1
    · exact (ih (max acc b)).2 a h

theorem le_npMax_of_mem {xs : List ℚ} {a m : ℚ} (ha : a ∈ xs)
    (hm : npMax xs = some m) : a ≤ m := by
  cases xs with
  | nil => cases ha
  | cons x rest =>
    simp only [npMax, Option.some.injEq] at hm
    subst hm
    rcases List.mem_cons.mp ha with h | h
    · subst h; exact (le_foldl_max rest a).1
    · exact (le_foldl_max rest x).2 a h

theorem pyBound_le (n : Nat) (i : Int) : pyBound n i ≤ n := by
  unfold pyBound; split <;> omega

theorem length_pySlice {α : Type} (xs : List α) (a b : Int) :
    (pySlice xs a b).length =
      pyBound xs.length b - pyBound xs.length a := by
  have hb := pyBound_le xs.length b
  simp only [pySlice, List.length_drop, List.length_take]
  omega

theorem pySlice_getElem? {α : Type} (xs : List α) (a b : Int) (t : Nat) :
    (pySlice xs a b)[t]? =
      if pyBound xs.length a + t < pyBound xs.length b
      then xs[pyBound xs.length a + t]? else none := by
  simp only [pySlice, List.getElem?_drop, List.getElem?_take]

theorem pySlice_getD {α : Type} (xs : List α) (a b : Int) (t : Nat) (d : α)
    (h : pyBound xs.length a + t < pyBound xs.length b) :
    (pySlice xs a b).getD t d = xs.getD (pyBound xs.length a + t) d := by
  rw [List.getD_eq_getElem?_getD, pySlice_getElem?, if_pos h,
    ← List.getD_eq_getElem?_getD]

theorem length_of_pySliceAssign {xs p ys : List ℚ} {a b : Int}
    (h : pySliceAssign xs a b p = some ys) : ys.length = xs.length := by
  have ha := pyBound_le xs.length a
  have hb := pyBound_le xs.length b
  simp only [pySliceAssign] at h
  split at h
  · cases h
    simp only [List.length_append, List.length_take, List.length_drop]
    omega
  · cases h

theorem window_data_some_le {data : List (List ℚ)} {w : Nat}
    {wd : List (List ℚ)} (h : window_data data w = some wd) :
    w ≤ data.length := by
  by_contra hc
  rw [window_data, if_pos (by omega : data.length < w)] at h
  exact Option.noConfusion h

theorem window_data_length {data : List (List ℚ)} {w : Nat}
    {wd : List (List ℚ)} (h : window_data data w = some wd) :
    wd.length = data.length - w + 1 := by
  have hle := window_data_some_le h
  simp only [window_data, if_neg (by omega : ¬ data.length < w),
    Option.some.injEq] at h
  subst h
  simp

theorem window_data_getD {data : List (List ℚ)} {w : Nat}
    {wd : List (List ℚ)} (h : window_data data w = some wd)
    (i : Nat) (hi : i < wd.length) :
    wd.getD i [] = ((data.drop i).take w).flatten := by
  have hle := window_data_some_le h
  have hlen := window_data_length h
  simp only [window_data, if_neg (by omega : ¬ data.length < w),
    Option.some.injEq] at h
  subst h
  rw [List.getD_eq_getElem?_getD, List.getElem?_map,
    List.getElem?_range (by omega : i < data.length - w + 1)]
  simp

theorem window_data_none_iff (data : List (List ℚ)) (w : Nat) :
    window_data data w = none ↔ data.length < w := by
  constructor
  · intro h
    by_contra hc
    rw [window_data, if_neg hc] at h
    exact Option.noConfusion h
  · intro h
    rw [window_data, if_pos h]

theorem window_data_one {data : List (List ℚ)} (h : 1 ≤ data.length) :
    window_data data 1 = some data := by
  simp only [window_data, if_neg (by omega : ¬ data.length < 1),
    Option.some.injEq]
  apply List.ext_getElem?
  intro i
  rw [List.getElem?_map]
  by_cases hi : i < data.length
  · rw [List.getElem?_range (by omega : i < data.length - 1 + 1),
      List.getElem?_eq_getElem hi]
    have h1 : List.take 1 (data.drop i) = [data[i]] := by
      rw [List.drop_eq_getElem_cons hi]
      rfl
    simp [h1]
  · rw [List.getElem?_eq_none
        (by simp only [List.length_range]; omega),
      List.getElem?_eq_none (by omega : data.length ≤ i)]
    simp

theorem npMeanAxis0_length {rs : List (List ℚ)} {s : List ℚ}
    (h : npMeanAxis0 rs = some s) : s.length = (rs.headD []).length := by
  cases rs with
  | nil => cases h
  | cons r rest =>
    simp only [npMeanAxis0] at h
    split at h
    · cases h; simp
    · cases h

theorem npMeanAxis0_getD {rs : List (List ℚ)} {s : List ℚ}
    (h : npMeanAxis0 rs = some s) (t : Nat) (ht : t < s.length) :
    s.getD t 0 = (rs.map (fun r => r.getD t 0)).sum / (rs.length : ℚ) := by
  have hlen := npMeanAxis0_length h
  cases rs with
  | nil => cases h
  | cons r rest =>
    simp only [npMeanAxis0] at h
    split at h
    · cases h
      rw [List.getD_eq_getElem?_getD, List.getElem?_map,
        List.getElem?_range (by simpa using ht)]
      simp
    · cases h

theorem lstm_bounds (L n : Nat) (hL : 2 ≤ L) (hn : 2 * L < n) :
    pyBound n (L : Int) = L ∧ pyBound n (-(L : Int) + 1) = n + 1 - L := by
  constructor
  · unfold pyBound; split <;> omega
  · unfold pyBound; split <;> omega

theorem get_scores_eq {L n : Nat} (p : List ℚ) (hL : 2 ≤ L) (hn : 2 * L < n)
    (hp : p.length = n + 1 - 2 * L) :
    LSTM_AD.get_scores L n p =
      some (List.replicate L 0 ++ p ++ List.replicate (L - 1) 0) := by
  obtain ⟨hlo, hhi⟩ := lstm_bounds L n hL hn
  unfold LSTM_AD.get_scores pySliceAssign
  simp only [List.length_replicate, hlo, hhi]
  have hmax : max L (n + 1 - L) = n + 1 - L := by omega
  rw [hmax, if_pos (by omega), List.take_replicate, List.drop_replicate]
  have h1 : min L n = L := by omega
  have h2 : n - (n + 1 - L) = L - 1 := by omega
  rw [h1, h2]

theorem get_scores_shape {L n : Nat} {p scores : List ℚ}
    (hL : 2 ≤ L) (hn : 2 * L < n)
    (h : LSTM_AD.get_scores L n p = some scores) :
    p.length = n + 1 - 2 * L ∧
      scores = List.replicate L 0 ++ p ++ List.replicate (L - 1) 0 := by
  obtain ⟨hlo, hhi⟩ := lstm_bounds L n hL hn
  unfold LSTM_AD.get_scores pySliceAssign at h
  simp only [List.length_replicate, hlo, hhi] at h
  have hmax : max L (n + 1 - L) = n + 1 - L := by omega
  rw [hmax] at h
  split at h
  · rename_i hcond
    cases h
    refine ⟨by omega, ?_⟩
    rw [List.take_replicate, List.drop_replicate]
    have h1 : min L n = L := by omega
    have h2 : n - (n + 1 - L) = L - 1 := by omega
    rw [h1, h2]
  · cases h

theorem npStackLast_of_all {α : Type} (d : α) (comps : List (List α)) (k : Nat)
    (hne : comps ≠ []) (hall : ∀ c ∈ comps, c.length = k) :
    npStackLast d comps =
      some ((List.range k).map (fun t => comps.map (fun e => e.getD t d))) := by
  cases comps with
  | nil => exact absurd rfl hne
  | cons c rest =>
    have hc : c.length = k := hall c (List.mem_cons_self c rest)
    simp only [npStackLast]
    rw [if_pos]
    · rw [hc]
    · rw [List.all_eq_true]
      intro e he
      simp [hall e (List.mem_cons_of_mem c he), hc]

/-! Claims. -/

/-- Claim C4: for every input table of `T` rows and `D` columns and every
window size `W ≤ T`, the windowing utility returns a table of `T - W + 1`
rows and `D * W` columns in which each output row is the concatenation of
`W` consecutive original rows, and it errors whenever `W > T`. -/
theorem window_data_spec :
    (∀ (data : List (List ℚ)) (w D : Nat), (∀ r ∈ data, r.length = D) →
      w ≤ data.length →
      ∃ wd, window_data data w = some wd ∧
        wd.length = data.length - w + 1 ∧
        (∀ r ∈ wd, r.length = D * w) ∧
        (∀ i, i < wd.length → wd.getD i [] = ((data.drop i).take w).flatten)) ∧
    (∀ (data : List (List ℚ)) (w : Nat), data.length < w →
      window_data data w = none) := by
  constructor
  · intro data w D hD hw
    have hne : ¬ data.length < w := by omega
    have hsome : window_data data w =
        some ((List.range (data.length - w + 1)).map
          (fun i => ((data.drop i).take w).flatten)) := by
      rw [window_data, if_neg hne]
    refine ⟨_, hsome, window_data_length hsome, ?_,
      fun i hi => window_data_getD hsome i hi⟩
    intro r hr
    simp only [List.mem_map, List.mem_range] at hr
    obtain ⟨i, hi, rfl⟩ := hr
    rw [List.length_flatten]
    have hmap : ((data.drop i).take w).map List.length = List.replicate w D := by
      rw [List.eq_replicate_iff]
      constructor
      · simp only [List.length_map, List.length_take, List.length_drop]
        omega
      · intro x hx
        simp only [List.mem_map] at hx
        obtain ⟨r, hr, rfl⟩ := hx
        exact hD r (List.drop_subset i data (List.take_subset w _ hr))
    rw [hmap, List.sum_replicate]
    simp [mul_comm]
  · intro data w h
    exact (window_data_none_iff data w).mpr h

/-- Witness for C4 at a concrete table: three univariate rows, window 2. -/
theorem window_data_spec_witness :
    (window_data [[(1:ℚ)],[2],[3]] 2).map List.length = some 2 ∧
    window_data [[(1:ℚ)]] 2 = none := by
  obtain ⟨wd, hwd, hlen, -, -⟩ :=
    window_data_spec.1 [[(1:ℚ)],[2],[3]] 2 1 (by decide) (by decide)
  refine ⟨?_, window_data_spec.2 [[(1:ℚ)]] 2 (by decide)⟩
  rw [hwd]
  simp [hlen]

/-- Claim C3: `AutoEncoder.train` sets the learned max error to the maximum
per-sample reconstruction error over the (windowed) training samples, and
`detect` returns a 0/1 mask that is `1` exactly where the `predict` score is
`≥ threshold * max_error` and `0` elsewhere. -/
theorem ae_threshold_and_detect (st st2 : AutoEncoder.State)
    (f : List ℚ → List ℚ) (data : List (List ℚ))
    (h : AutoEncoder.train st f data = some st2) :
    (∃ samples, AutoEncoder.transform_data st.windowSize data = some samples ∧
      npMax (samples.map (AutoEncoder.sampleError f)) = some st2.maxError) ∧
    (∀ d scores, AutoEncoder.predict st2 d = some scores →
      AutoEncoder.detect st2 d = some (scores.map
        (fun s => if st.threshold * st2.maxError ≤ s then (1 : Int) else 0))) := by
  cases htr : AutoEncoder.transform_data st.windowSize data with
  | none => simp [AutoEncoder.train, htr] at h
  | some samples =>
    cases hmx : npMax (samples.map (AutoEncoder.sampleError f)) with
    | none => simp [AutoEncoder.train, htr, hmx] at h
    | some m =>
      simp only [AutoEncoder.train, htr, hmx, Option.some.injEq] at h
      subst h
      refine ⟨⟨samples, rfl, hmx⟩, ?_⟩
      intro d scores hp
      simp [AutoEncoder.detect, hp]

/-- Witness for C3: a window-1 autoencoder trained on two rows with the
identity reconstruction has max error 0 and flags both rows. -/
theorem ae_threshold_and_detect_witness :
    AutoEncoder.detect ⟨some (fun v => v), 0, 8/10, 1⟩ [[(1:ℚ)],[2]]
      = some [1, 1] := by
  have h := (ae_threshold_and_detect ⟨none, 0, 8/10, 1⟩
      ⟨some (fun v => v), 0, 8/10, 1⟩ (fun v => v) [[(1:ℚ)],[2]]
      (by norm_num [AutoEncoder.train, AutoEncoder.transform_data, npMax,
        AutoEncoder.sampleError, mse])).2
    [[(1:ℚ)],[2]] [0, 0]
    (by norm_num [AutoEncoder.predict, AutoEncoder.transform_data,
      AutoEncoder.sampleError, mse])
  rw [h]
  norm_num

/-- Claim C5: after training, every non-padded entry of `predict` on the
training data itself is at most the learned max training error. -/
theorem ae_predict_on_train_le_max (st st2 : AutoEncoder.State)
    (f : List ℚ → List ℚ) (data : List (List ℚ)) (scores : List ℚ)
    (h : AutoEncoder.train st f data = some st2)
    (hp : AutoEncoder.predict st2 data = some scores)
    (i : Nat) (hw : st.windowSize - 1 ≤ i) (hi : i < scores.length) :
    scores.getD i 0 ≤ st2.maxError := by
  cases htr : AutoEncoder.transform_data st.windowSize data with
  | none => simp [AutoEncoder.train, htr] at h
  | some samples =>
    cases hmx : npMax (samples.map (AutoEncoder.sampleError f)) with
    | none => simp [AutoEncoder.train, htr, hmx] at h
    | some m =>
      simp only [AutoEncoder.train, htr, hmx, Option.some.injEq] at h
      subst h
      simp only [AutoEncoder.predict, htr, Option.some.injEq] at hp
      subst hp
      have hrep : (List.replicate (st.windowSize - 1) (0:ℚ)).length =
          st.windowSize - 1 := by simp
      rw [List.getD_append_right _ _ _ i (by omega)]
      have hj : i - (List.replicate (st.windowSize - 1) (0:ℚ)).length <
          (samples.map (AutoEncoder.sampleError f)).length := by
        simp only [List.length_append] at hi
        omega
      rw [List.getD_eq_getElem?_getD, List.getElem?_eq_getElem hj]
      exact le_npMax_of_mem (List.getElem_mem hj) hmx

/-- Witness for C5: window-1 identity autoencoder on two rows; the score at
position 0 is below the learned max error. -/
theorem ae_predict_on_train_le_max_witness :
    ([(0:ℚ), 0] : List ℚ).getD 0 0 ≤ (0 : ℚ) :=
  ae_predict_on_train_le_max ⟨none, 0, 8/10, 1⟩
    ⟨some (fun v => v), 0, 8/10, 1⟩ (fun v => v) [[(1:ℚ)],[2]] [0, 0]
    (by norm_num [AutoEncoder.train, AutoEncoder.transform_data, npMax,
      AutoEncoder.sampleError, mse])
    (by norm_num [AutoEncoder.predict, AutoEncoder.transform_data,
      AutoEncoder.sampleError, mse])
    0 (by decide) (by decide)

theorem padded_scores_spec (L n : Nat) (p : List ℚ) (hL : 2 ≤ L)
    (hn : 2 * L < n) (hp : p.length = n + 1 - 2 * L) :
    (List.replicate L (0:ℚ) ++ p ++ List.replicate (L - 1) 0).length = n ∧
    (∀ i, i < L →
      (List.replicate L (0:ℚ) ++ p ++ List.replicate (L - 1) 0)[i]? = some 0) ∧
    (∀ i, n - L + 1 ≤ i → i < n →
      (List.replicate L (0:ℚ) ++ p ++ List.replicate (L - 1) 0)[i]? = some 0) ∧
    (∀ j, j < p.length →
      (List.replicate L (0:ℚ) ++ p ++ List.replicate (L - 1) 0)[L + j]? = p[j]?) := by
  refine ⟨?_, ?_, ?_, ?_⟩
  · simp only [List.length_append, List.length_replicate]
    omega
  · intro i hi
    rw [List.getElem?_append,
      if_pos (by simp only [List.length_append, List.length_replicate]; omega),
      List.getElem?_append,
      if_pos (by simp only [List.length_replicate]; omega),
      List.getElem?_replicate, if_pos hi]
  · intro i h1 h2
    rw [List.getElem?_append_right
      (by simp only [List.length_append, List.length_replicate]; omega)]
    simp only [List.length_append, List.length_replicate]
    rw [List.getElem?_replicate, if_pos (by omega)]
  · intro j hj
    rw [List.getElem?_append,
      if_pos (by simp only [List.length_append, List.length_replicate]; omega),
      List.getElem?_append_right (by simp only [List.length_replicate]; omega)]
    simp only [List.length_replicate]
    have hidx : L + j - L = j := by omega
    rw [hidx]

/-- Counterexample to C2: a trained `LSTM_AD` with horizon `L = 2` on five
rows.  The score at position `n - L = 3` — one of the last `L` positions —
carries a likelihood value (here 1), not the neutral zero: the slice
assignment `scores[L:-L+1] = p` reaches position `n - L`. -/
theorem lstm_last_entries_counterexample :
    LSTM_AD.predict
        (LSTM_AD.train ⟨none, none, 2, 9/10⟩ (fun v => v) (fun _ => 1))
        [[(0:ℚ)],[0],[0],[0],[0]] = some [0,0,1,1,0] ∧
    ([0,0,1,1,(0:ℚ)] : List ℚ).getD 3 0 ≠ 0 ∧
    2 * 2 < ([[(0:ℚ)],[0],[0],[0],[0]] : List (List ℚ)).length := by
  refine ⟨?_, by norm_num [List.getD], by decide⟩
  norm_num [LSTM_AD.train, LSTM_AD.predict, LSTM_AD.transform_eval_data_target,
    LSTM_AD.likelihoods, LSTM_AD.get_scores, pySlice, pySliceAssign, pyBound,
    show Int.toNat 2 = 2 from rfl, show Int.toNat 3 = 3 from rfl,
    show Int.toNat 4 = 4 from rfl, List.replicate_succ]

/-- Claim C2 (amended): for `2 ≤ L` and `len(data) = n > 2L`, the score
array has length `n`, its first `L` entries and its last `L - 1` entries
equal the pre-initialized zero, and positions `L .. n - L` carry the
likelihood scores `p` in order (so position `n - L`, among the last `L`
entries, is a likelihood score, not padding). -/
theorem lstm_score_padding_amended (L n : Nat) (p : List ℚ)
    (hL : 2 ≤ L) (hn : 2 * L < n) (hp : p.length = n + 1 - 2 * L) :
    ∃ scores, LSTM_AD.get_scores L n p = some scores ∧
      scores.length = n ∧
      (∀ i, i < L → scores.getD i 1 = 0) ∧
      (∀ i, n - L + 1 ≤ i → i < n → scores.getD i 1 = 0) ∧
      (∀ j, j < p.length → scores.getD (L + j) 1 = p.getD j 1) := by
  obtain ⟨hlen, h0, htail, hmid⟩ := padded_scores_spec L n p hL hn hp
  refine ⟨_, get_scores_eq p hL hn hp, hlen, ?_, ?_, ?_⟩
  · intro i hi
    rw [List.getD_eq_getElem?_getD, h0 i hi]
    rfl
  · intro i h1 h2
    rw [List.getD_eq_getElem?_getD, htail i h1 h2]
    rfl
  · intro j hj
    rw [List.getD_eq_getElem?_getD, hmid j hj, ← List.getD_eq_getElem?_getD]

/-- Witness for the amended C2 at `L = 2`, `n = 5`, `p = [1, 1]`. -/
theorem lstm_score_padding_amended_witness :
    (LSTM_AD.get_scores 2 5 [(1:ℚ), 1]).map List.length = some 5 := by
  obtain ⟨s, hs, hlen, -, -, -⟩ :=
    lstm_score_padding_amended 2 5 [(1:ℚ), 1] (by norm_num) (by norm_num)
      (by simp)
  rw [hs]
  simp [hlen]

/-- Claim C10: for a trained `LSTM_AD` with positive likelihood threshold,
`detect` flags exactly the entries whose score is strictly below the
threshold; in particular every zero-padded boundary entry is flagged. -/
theorem lstm_detect_flags (st : LSTM_AD.State) (data : List (List ℚ))
    (scores : List ℚ) (hθ : 0 < st.threshold)
    (hL : 2 ≤ st.lPreds) (hn : 2 * st.lPreds < data.length)
    (hs : LSTM_AD.predict st data = some scores) :
    ∃ mask, LSTM_AD.detect st data = some mask ∧
      (∀ i, i < st.lPreds → mask.getD i 0 = 1) ∧
      (∀ i, data.length - st.lPreds + 1 ≤ i → i < data.length →
        mask.getD i 0 = 1) ∧
      (∀ i, i < data.length →
        (mask.getD i 0 = 1 ↔ scores.getD i st.threshold < st.threshold)) := by
  cases hm : st.model with
  | none => simp [LSTM_AD.predict, hm] at hs
  | some m =>
    cases hd : st.errorDist with
    | none => simp [LSTM_AD.predict, hm, hd] at hs
    | some dist =>
      have hs2 : LSTM_AD.get_scores st.lPreds data.length
          (LSTM_AD.likelihoods dist
            (m (LSTM_AD.transform_eval_data_target st.lPreds data).1)
            (LSTM_AD.transform_eval_data_target st.lPreds data).2)
          = some scores := by
        simpa only [LSTM_AD.predict, hm, hd] using hs
      obtain ⟨hp, hsc⟩ := get_scores_shape hL hn hs2
      obtain ⟨hlen0, h0, htail, -⟩ :=
        padded_scores_spec st.lPreds data.length _ hL hn hp
      have hslen : scores.length = data.length := by rw [hsc]; exact hlen0
      refine ⟨scores.map (fun s => if s < st.threshold then (1 : Int) else 0),
        by rw [LSTM_AD.detect, hs]; rfl, ?_, ?_, ?_⟩
      · intro i hi
        rw [List.getD_eq_getElem?_getD, List.getElem?_map, hsc, h0 i hi]
        simp [hθ]
      · intro i h1 h2
        rw [List.getD_eq_getElem?_getD, List.getElem?_map, hsc, htail i h1 h2]
        simp [hθ]
      · intro i hi
        have hilen : i < scores.length := by omega
        rw [List.getD_eq_getElem?_getD, List.getElem?_map,
          List.getElem?_eq_getElem hilen,
          List.getD_eq_getElem?_getD, List.getElem?_eq_getElem hilen]
        by_cases hlt : scores[i] < st.threshold
        · simp [hlt]
        · simp [hlt]

/-- Witness for C10: the trained horizon-2 detector of the counterexample
flags position 0 (a padded entry) on five rows. -/
theorem lstm_detect_flags_witness :
    (LSTM_AD.detect ⟨some (fun v => v), some (fun _ => 1), 2, 9/10⟩
      [[(0:ℚ)],[0],[0],[0],[0]]).map (fun m2 => m2.getD 0 0) = some 1 := by
  obtain ⟨mask, hm2, h0, -, -⟩ :=
    lstm_detect_flags ⟨some (fun v => v), some (fun _ => 1), 2, 9/10⟩
      [[(0:ℚ)],[0],[0],[0],[0]] [0,0,1,1,0]
      (by norm_num : (0:ℚ) < 9/10) (by norm_num : 2 ≤ 2)
      (by decide : 2 * 2 < 5)
      (by norm_num [LSTM_AD.predict, LSTM_AD.transform_eval_data_target,
        LSTM_AD.likelihoods, LSTM_AD.get_scores, pySlice, pySliceAssign,
        pyBound, show Int.toNat 2 = 2 from rfl, show Int.toNat 3 = 3 from rfl,
        show Int.toNat 4 = 4 from rfl, List.replicate_succ])
  rw [hm2]
  simpa using h0 0 (by norm_num)

theorem trainTargetComps_all_length (L : Nat) (xs : List (List ℚ))
    (hL : 1 ≤ L) (hn : L < xs.length) :
    ∀ c ∈ LSTM_AD.trainTargetComps L xs, c.length = xs.length - L := by
  intro c hc
  rw [LSTM_AD.trainTargetComps, List.mem_append] at hc
  rcases hc with hc | hc
  · simp only [List.mem_map, List.mem_range] at hc
    obtain ⟨i, hi, rfl⟩ := hc
    rw [length_pySlice]
    have hb1 : pyBound xs.length (1 + (i : Int)) = 1 + i := by
      unfold pyBound; split <;> omega
    have hb2 : pyBound xs.length (-(L : Int) + i + 1) =
        xs.length - L + i + 1 := by
      unfold pyBound; split <;> omega
    rw [hb1, hb2]
    omega
  · simp only [List.mem_singleton] at hc
    subst hc
    rw [length_pySlice]
    have hbL : pyBound xs.length (L : Int) = L := by
      unfold pyBound; split <;> omega
    have hbn : pyBound xs.length (xs.length : Int) = xs.length := by
      unfold pyBound; split <;> omega
    rw [hbL, hbn]

theorem trainTargetComps_map_getD (L : Nat) (xs : List (List ℚ))
    (hL : 1 ≤ L) (hn : L < xs.length) (t : Nat) (ht : t < xs.length - L) :
    (LSTM_AD.trainTargetComps L xs).map (fun e => e.getD t []) =
      (xs.drop (t + 1)).take L := by
  apply List.ext_getElem?
  intro i
  rw [List.getElem?_map]
  by_cases hiL : i < L
  · have hidx : t + 1 + i < xs.length := by omega
    have hxg : xs.getD (t + 1 + i) [] = xs[t + 1 + i] := by
      rw [List.getD_eq_getElem?_getD, List.getElem?_eq_getElem hidx]
      rfl
    have hrhs : ((xs.drop (t + 1)).take L)[i]? = some (xs[t + 1 + i]) := by
      rw [List.getElem?_take, if_pos hiL, List.getElem?_drop,
        List.getElem?_eq_getElem hidx]
    by_cases hi1 : i < L - 1
    · have hcomp : (LSTM_AD.trainTargetComps L xs)[i]? =
          some (pySlice xs (1 + (i : Int)) (-(L : Int) + i + 1)) := by
        rw [LSTM_AD.trainTargetComps, List.getElem?_append,
          if_pos (by simp only [List.length_map, List.length_range]; omega),
          List.getElem?_map, List.getElem?_range hi1]
        rfl
      rw [hcomp]
      have hb1 : pyBound xs.length (1 + (i : Int)) = 1 + i := by
        unfold pyBound; split <;> omega
      have hb2 : pyBound xs.length (-(L : Int) + i + 1) =
          xs.length - L + i + 1 := by
        unfold pyBound; split <;> omega
      have hgd := pySlice_getD xs (1 + (i : Int)) (-(L : Int) + i + 1) t
        ([] : List ℚ) (by rw [hb1, hb2]; omega)
      rw [hb1] at hgd
      have hidx2 : 1 + i + t = t + 1 + i := by omega
      rw [hidx2] at hgd
      show some ((pySlice xs (1 + (i : Int)) (-(L : Int) + i + 1)).getD t []) = _
      rw [hgd, hxg, hrhs]
    · have hieq : i = L - 1 := by omega
      subst hieq
      have hcomp : (LSTM_AD.trainTargetComps L xs)[L - 1]? =
          some (pySlice xs (L : Int) (xs.length : Int)) := by
        rw [LSTM_AD.trainTargetComps, List.getElem?_append_right
          (by simp only [List.length_map, List.length_range]; omega)]
        simp only [List.length_map, List.length_range]
        have h0 : L - 1 - (L - 1) = 0 := by omega
        rw [h0]
        rfl
      rw [hcomp]
      have hbL : pyBound xs.length (L : Int) = L := by
        unfold pyBound; split <;> omega
      have hbn : pyBound xs.length (xs.length : Int) = xs.length := by
        unfold pyBound; split <;> omega
      have hgd := pySlice_getD xs (L : Int) (xs.length : Int) t
        ([] : List ℚ) (by rw [hbL, hbn]; omega)
      rw [hbL] at hgd
      have hidx3 : L + t = t + 1 + (L - 1) := by omega
      rw [hidx3] at hgd
      show some ((pySlice xs (L : Int) (xs.length : Int)).getD t []) = _
      rw [hgd, hxg, hrhs]
  · have hclen : (LSTM_AD.trainTargetComps L xs).length = L := by
      rw [LSTM_AD.trainTargetComps]
      simp only [List.length_append, List.length_map, List.length_range,
        List.length_singleton]
      omega
    rw [List.getElem?_eq_none (by rw [hclen]; omega),
      List.getElem?_eq_none
        (by simp only [List.length_take, List.length_drop]; omega)]
    rfl

/-- Claim C6: for a series `xs` with `n > L` rows and horizon `L ≥ 1`, the
training transformation pairs the input sequence `[x 1, .., x (n - L)]`
with targets whose entry at 0-based position `t` is the window of the `L`
rows following position `t`, i.e. `[x (t+2), .., x (t+L+1)]` in 1-based
indexing. -/
theorem lstm_train_targets_spec (L : Nat) (xs : List (List ℚ))
    (hL : 1 ≤ L) (hn : L < xs.length) :
    ∃ targets, LSTM_AD.transform_train_data_target L xs =
        some (xs.take (xs.length - L), targets) ∧
      targets.length = xs.length - L ∧
      ∀ t, t < xs.length - L → targets.getD t [] = (xs.drop (t + 1)).take L := by
  have hall := trainTargetComps_all_length L xs hL hn
  have hne : LSTM_AD.trainTargetComps L xs ≠ [] := by
    rw [LSTM_AD.trainTargetComps]
    simp
  have hstack := npStackLast_of_all ([] : List ℚ)
    (LSTM_AD.trainTargetComps L xs) (xs.length - L) hne hall
  have htrain : pySlice xs 0 (-(L : Int)) = xs.take (xs.length - L) := by
    rw [pySlice]
    have h0 : pyBound xs.length 0 = 0 := by unfold pyBound; split <;> omega
    have hmL : pyBound xs.length (-(L : Int)) = xs.length - L := by
      unfold pyBound; split <;> omega
    rw [h0, hmL, List.drop_zero]
  refine ⟨(List.range (xs.length - L)).map
      (fun t => (LSTM_AD.trainTargetComps L xs).map (fun e => e.getD t [])),
    ?_, by simp, ?_⟩
  · rw [LSTM_AD.transform_train_data_target, hstack, htrain]
    rfl
  · intro t ht
    rw [List.getD_eq_getElem?_getD, List.getElem?_map, List.getElem?_range ht]
    show (LSTM_AD.trainTargetComps L xs).map (fun e => e.getD t []) = _
    exact trainTargetComps_map_getD L xs hL hn t ht

/-- Witness for C6: horizon 1 on two rows gives a one-row input sequence
paired with one target window. -/
theorem lstm_train_targets_spec_witness :
    (LSTM_AD.transform_train_data_target 1 [[(1:ℚ)],[2]]).map
      (fun pr => (pr.1.length, pr.2.length)) = some (1, 1) := by
  obtain ⟨tg, heq, hlen, -⟩ :=
    lstm_train_targets_spec 1 [[(1:ℚ)],[2]] (by norm_num) (by norm_num)
  rw [heq]
  simp [hlen]

theorem npMeanAxis0_of_all {rs : List (List ℚ)} {k : Nat} (hne : rs ≠ [])
    (hall : ∀ r ∈ rs, r.length = k) :
    ∃ s, npMeanAxis0 rs = some s ∧ s.length = k := by
  cases rs with
  | nil => exact absurd rfl hne
  | cons r rest =>
    have hr : r.length = k := hall r (List.mem_cons_self _ _)
    have hcond : rest.all (fun s => s.length = r.length) = true := by
      rw [List.all_eq_true]
      intro e he
      simp [hall e (List.mem_cons_of_mem _ he), hr]
    refine ⟨(List.range r.length).map
        (fun t => ((r :: rest).map (fun row => row.getD t 0)).sum
          / ((r :: rest).length : ℚ)), ?_, by simp [hr]⟩
    simp only [npMeanAxis0, hcond, if_true]

theorem mem_zipWith_apply :
    ∀ (gs : List (List ℚ → List ℚ)) (cs : List (List ℚ)) (r : List ℚ),
      r ∈ List.zipWith (fun g c => g c) gs cs →
      ∃ g c, g ∈ gs ∧ c ∈ cs ∧ r = g c := by
  intro gs
  induction gs with
  | nil => intro cs r hr; simp at hr
  | cons g gt ih =>
    intro cs r hr
    cases cs with
    | nil => simp at hr
    | cons c ct =>
      rw [List.zipWith_cons_cons] at hr
      rcases List.mem_cons.mp hr with h | h
      · exact ⟨g, c, List.mem_cons_self _ _, List.mem_cons_self _ _, h⟩
      · obtain ⟨g2, c2, hg2, hc2, hr2⟩ := ih ct r h
        exact ⟨g2, c2, List.mem_cons_of_mem _ hg2, List.mem_cons_of_mem _ hc2,
          hr2⟩

theorem columnsOf_length (rows : List (List ℚ)) :
    (Donut.columnsOf rows).length = (rows.headD []).length := by
  simp [Donut.columnsOf]

theorem columnsOf_mem_length (rows : List (List ℚ)) :
    ∀ c ∈ Donut.columnsOf rows, c.length = rows.length := by
  intro c hc
  simp only [Donut.columnsOf, List.mem_map, List.mem_range] at hc
  obtain ⟨j, hj, rfl⟩ := hc
  simp

/-- Claim C7: calling `predict` before `train` propagates an error in every
detector: AutoEncoder and LSTM_AD dereference the `None` model, and Donut
(whose predictor list is empty before `train`) hits an `IndexError` at the
first column. -/
theorem untrained_predict_errors :
    (∀ (st : AutoEncoder.State), st.model = none →
      ∀ data, AutoEncoder.predict st data = none) ∧
    (∀ (st : LSTM_AD.State), st.model = none →
      ∀ data, LSTM_AD.predict st data = none) ∧
    (∀ (st : Donut.State) (w : Nat) (data : List (List ℚ)),
      st.predictors = [] →
      (∀ wd, window_data data w = some wd →
        1 ≤ (Donut.columnsOf wd).length) →
      Donut.predict w st data = none) := by
  refine ⟨?_, ?_, ?_⟩
  · intro st hm data
    cases htr : AutoEncoder.transform_data st.windowSize data with
    | none => simp [AutoEncoder.predict, htr]
    | some samples => simp [AutoEncoder.predict, htr, hm]
  · intro st hm data
    simp [LSTM_AD.predict, hm]
  · intro st w data hpred hcols
    cases hw : window_data data w with
    | none => simp [Donut.predict, Donut.column_scores, hw]
    | some wd =>
      have h1 := hcols wd hw
      have hcs : Donut.column_scores w st data = none := by
        simp only [Donut.column_scores, hw]
        rw [if_neg (by rw [hpred]; simp only [List.length_nil]; omega)]
      simp [Donut.predict, hcs]

/-- Witness for C7: the three untrained detectors reject concrete calls. -/
theorem untrained_predict_errors_witness :
    AutoEncoder.predict ⟨none, 0, 8/10, 2⟩ [[(1:ℚ)],[2]] = none ∧
    LSTM_AD.predict ⟨none, none, 2, 9/10⟩ [[(1:ℚ)]] = none ∧
    Donut.predict 1 ⟨[]⟩ ([] : List (List ℚ)) = none := by
  refine ⟨untrained_predict_errors.1 _ rfl _,
    untrained_predict_errors.2.1 _ rfl _,
    untrained_predict_errors.2.2 _ 1 _ rfl ?_⟩
  intro wd hwd
  simp [window_data] at hwd

/-- Claim C8: each entry of the Donut score array is the arithmetic mean,
over the columns, of the per-column scores at that position. -/
theorem donut_mean_scores (w : Nat) (st : Donut.State)
    (data : List (List ℚ)) (rs : List (List ℚ)) (s : List ℚ)
    (hr : Donut.column_scores w st data = some rs)
    (hs : Donut.predict w st data = some s) :
    ∀ t, t < s.length →
      s.getD t 0 = (rs.map (fun r => r.getD t 0)).sum / (rs.length : ℚ) := by
  intro t ht
  have hmean : npMeanAxis0 rs = some s := by
    simpa only [Donut.predict, hr] using hs
  exact npMeanAxis0_getD hmean t ht

/-- Witness for C8: two identity columns on two rows; the score at position
0 is the average of the two column scores. -/
theorem donut_mean_scores_witness :
    ([2, (3:ℚ)] : List ℚ).getD 0 0 =
      (([[(1:ℚ),2],[3,4]] : List (List ℚ)).map (fun r => r.getD 0 0)).sum
        / (([[(1:ℚ),2],[3,4]] : List (List ℚ)).length : ℚ) := by
  have h := donut_mean_scores 1 ⟨[fun v => v, fun v => v]⟩ [[(1:ℚ),3],[2,4]]
    [[1,2],[3,4]] [2,3]
    (by norm_num [Donut.column_scores, Donut.columnsOf, window_data,
      List.range_succ])
    (by norm_num [Donut.predict, Donut.column_scores, Donut.columnsOf,
      window_data, npMeanAxis0, List.range_succ])
    0 (by norm_num)
  exact h

/-- Counterexample to C9: `Donut.train` appends to the predictor list, so
after a second `train` call, `predict` (indexing from 0) still uses the
predictors of the first call: the result equals the first-train result and
differs from what the second training alone would give. -/
theorem donut_second_train_counterexample :
    Donut.predict 1
        (Donut.train (Donut.train ⟨[]⟩ [fun v => v.map (fun x => x + 1)])
          [fun v => v.map (fun x => x + 2)])
        [[(1:ℚ)],[2]] = some [2, 3] ∧
    Donut.predict 1 (Donut.train ⟨[]⟩ [fun v => v.map (fun x => x + 2)])
        [[(1:ℚ)],[2]] = some [3, 4] ∧
    ([2, (3:ℚ)] : List ℚ) ≠ [3, 4] := by
  refine ⟨?_, ?_, by norm_num⟩ <;>
    norm_num [Donut.train, Donut.predict, Donut.column_scores,
      Donut.columnsOf, window_data, npMeanAxis0, List.range_succ]

/-- Claim C9 (amended): `train` of AutoEncoder and LSTM_AD rebuilds the
trained state from scratch — the resulting state depends only on the
instance configuration and the new training run, never on previously
trained state — while `Donut.train` appends its per-column predictors to
those of earlier calls, so a second `train` leaves the predictors of the
first call at the indices `predict` reads. -/
theorem train_state_overwrite_amended :
    (∀ (st1 st2 : AutoEncoder.State) (f : List ℚ → List ℚ)
        (data : List (List ℚ)),
      st1.windowSize = st2.windowSize → st1.threshold = st2.threshold →
      AutoEncoder.train st1 f data = AutoEncoder.train st2 f data) ∧
    (∀ (st : LSTM_AD.State) (m1 m2 : List (List ℚ) → List (List ℚ))
        (d1 d2 : List ℚ → ℚ),
      LSTM_AD.train (LSTM_AD.train st m1 d1) m2 d2 = LSTM_AD.train st m2 d2) ∧
    (∀ (st : Donut.State) (gs : List (List ℚ → List ℚ)),
      (Donut.train st gs).predictors = st.predictors ++ gs) := by
  refine ⟨?_, fun st m1 m2 d1 d2 => rfl, fun st gs => rfl⟩
  intro st1 st2 f data hw ht
  rw [AutoEncoder.train, AutoEncoder.train, hw, ht]

/-- Witness for C9 (amended): training an untrained and an already-trained
autoencoder of the same configuration gives the same state. -/
theorem train_state_overwrite_amended_witness :
    AutoEncoder.train ⟨none, 0, 1, 1⟩ (fun v => v) [[(1:ℚ)]] =
      AutoEncoder.train ⟨some (fun v => v.map (fun x => x + 5)), 7, 1, 1⟩
        (fun v => v) [[(1:ℚ)]] :=
  train_state_overwrite_amended.1 _ _ _ _ rfl rfl

/-- Counterexample to C1: `Donut.predict` windows the input without
re-padding, so with window size 2 on three rows it returns two scores (one
per window), not three — even with per-column predictors that return one
score per input value. -/
theorem donut_predict_length_counterexample :
    (Donut.predict 2 ⟨[fun v => v, fun v => v]⟩ [[(1:ℚ)],[2],[3]]).map
        List.length = some 2 ∧
    (2 : Nat) ≠ ([[(1:ℚ)],[2],[3]] : List (List ℚ)).length := by
  refine ⟨?_, by norm_num⟩
  norm_num [Donut.predict, Donut.column_scores, Donut.columnsOf, window_data,
    npMeanAxis0, List.range_succ]

/-- Claim C1 (amended): whenever `predict` returns, AutoEncoder and LSTM_AD
return one score per input row; Donut does so for window size 1 (given
per-column predictors that return one score per value), but for window size
`W > 1` it returns one score per window — `len(data) - W + 1` — as the
counterexample shows. -/
theorem predict_length_amended :
    (∀ (st : AutoEncoder.State) (data : List (List ℚ)) (scores : List ℚ),
      AutoEncoder.predict st data = some scores →
      scores.length = data.length) ∧
    (∀ (st : LSTM_AD.State) (data : List (List ℚ)) (scores : List ℚ),
      LSTM_AD.predict st data = some scores →
      scores.length = data.length) ∧
    (∀ (st : Donut.State) (data : List (List ℚ)),
      (∀ g ∈ st.predictors, ∀ v, (g v).length = v.length) →
      0 < data.length → 0 < (data.headD []).length →
      (Donut.columnsOf data).length ≤ st.predictors.length →
      ∃ scores, Donut.predict 1 st data = some scores ∧
        scores.length = data.length) := by
  refine ⟨?_, ?_, ?_⟩
  · intro st data scores hp
    cases htr : AutoEncoder.transform_data st.windowSize data with
    | none => simp [AutoEncoder.predict, htr] at hp
    | some samples =>
      cases hm : st.model with
      | none => simp [AutoEncoder.predict, htr, hm] at hp
      | some f =>
        simp only [AutoEncoder.predict, htr, hm, Option.some.injEq] at hp
        subst hp
        simp only [List.length_append, List.length_replicate, List.length_map]
        by_cases h1 : 1 < st.windowSize
        · have hw : window_data data st.windowSize = some samples := by
            simpa only [AutoEncoder.transform_data, if_pos h1] using htr
          have h2 := window_data_length hw
          have h3 := window_data_some_le hw
          omega
        · have hd : data = samples := by
            simpa only [AutoEncoder.transform_data, if_neg h1,
              Option.some.injEq] using htr
          subst hd
          omega
  · intro st data scores hp
    cases hm : st.model with
    | none => simp [LSTM_AD.predict, hm] at hp
    | some m =>
      cases hd : st.errorDist with
      | none => simp [LSTM_AD.predict, hm, hd] at hp
      | some dist =>
        have hp2 : pySliceAssign (List.replicate data.length 0)
            (st.lPreds : Int) (-(st.lPreds : Int) + 1)
            (LSTM_AD.likelihoods dist
              (m (LSTM_AD.transform_eval_data_target st.lPreds data).1)
              (LSTM_AD.transform_eval_data_target st.lPreds data).2)
            = some scores := by
          simpa only [LSTM_AD.predict, hm, hd, LSTM_AD.get_scores] using hp
        have := length_of_pySliceAssign hp2
        simpa using this
  · intro st data hpres hd1 hd2 hg
    have hw1 : window_data data 1 = some data := window_data_one hd1
    have hcs : Donut.column_scores 1 st data =
        some (List.zipWith (fun g c => g c) st.predictors
          (Donut.columnsOf data)) := by
      simp only [Donut.column_scores, hw1, if_pos hg]
    have hall : ∀ r ∈ List.zipWith (fun g c => g c) st.predictors
        (Donut.columnsOf data), r.length = data.length := by
      intro r hr
      obtain ⟨g, c, hgm, hcm, rfl⟩ := mem_zipWith_apply _ _ _ hr
      rw [hpres g hgm c]
      exact columnsOf_mem_length data c hcm
    have hne : List.zipWith (fun g c => g c) st.predictors
        (Donut.columnsOf data) ≠ [] := by
      intro hcontra
      have hlen : (List.zipWith (fun g c => g c) st.predictors
          (Donut.columnsOf data)).length = 0 := by rw [hcontra]; rfl
      rw [List.length_zipWith] at hlen
      have hc := columnsOf_length data
      omega
    obtain ⟨s, hs, hslen⟩ := npMeanAxis0_of_all hne hall
    refine ⟨s, ?_, hslen⟩
    simp only [Donut.predict, hcs]
    exact hs

/-- Witness for the amended C1: concrete trained detectors of each kind
return as many scores as input rows. -/
theorem predict_length_amended_witness :
    (AutoEncoder.predict ⟨some (fun v => v), 0, 8/10, 1⟩ [[(1:ℚ)],[2]]).map
        List.length = some 2 ∧
    (LSTM_AD.predict ⟨some (fun v => v), some (fun _ => 1), 2, 9/10⟩
        [[(0:ℚ)],[0],[0],[0],[0]]).map List.length = some 5 ∧
    (Donut.predict 1 ⟨[fun v => v]⟩ [[(1:ℚ)],[2]]).map List.length
      = some 2 := by
  refine ⟨?_, ?_, ?_⟩
  · have hp : AutoEncoder.predict ⟨some (fun v => v), 0, 8/10, 1⟩
        [[(1:ℚ)],[2]] = some [0, 0] := by
      norm_num [AutoEncoder.predict, AutoEncoder.transform_data,
        AutoEncoder.sampleError, mse]
    have h := predict_length_amended.1 _ _ _ hp
    rw [hp]
    exact congrArg some h
  · have hp : LSTM_AD.predict ⟨some (fun v => v), some (fun _ => 1), 2, 9/10⟩
        [[(0:ℚ)],[0],[0],[0],[0]] = some [0,0,1,1,0] := by
      norm_num [LSTM_AD.predict, LSTM_AD.transform_eval_data_target,
        LSTM_AD.likelihoods, LSTM_AD.get_scores, pySlice, pySliceAssign,
        pyBound, show Int.toNat 2 = 2 from rfl, show Int.toNat 3 = 3 from rfl,
        show Int.toNat 4 = 4 from rfl, List.replicate_succ]
    have h := predict_length_amended.2.1 _ _ _ hp
    rw [hp]
    exact congrArg some h
  · obtain ⟨s, hs, hlen⟩ := predict_length_amended.2.2 ⟨[fun v => v]⟩
      [[(1:ℚ)],[2]]
      (by intro g hg v
          simp only [List.mem_singleton] at hg
          subst hg
          rfl)
      (by norm_num) (by norm_num)
      (by norm_num [Donut.columnsOf])
    rw [hs]
    simp [hlen]

end SopsAnomaly
